import Mathlib

/-!
Verification of the view rendering and interaction engine of the map
projections program.

The development shallowly embeds the relevant source code:

* `data.rs` mesh builders (globe mesh, vector map) as pure functions over
  rational coordinates and natural-number index lists;
* `draw_buffer.rs` double-buffered render target as explicit state passing,
  with an allocation counter giving every GPU surface a distinct identity tag;
* `views/base.rs` camera and orientation model over real numbers, with GPU
  draw calls recorded in an event log.

Floating point values of the source are modelled as exact rationals or reals.
-/

namespace Projections

/- ===================================================================
   Mesh builder (src/data.rs)
   =================================================================== -/

/-- Vertex of the lon/lat meshes; `data.rs`, struct `LonLatVertex`.
Coordinates are degrees: -180 to 180 for longitude, -90 to 90 for latitude. -/
structure LonLatVertex where
  lon : ℚ
  lat : ℚ
deriving DecidableEq, Repr

/-- Number of grid columns; `data.rs` line 259:
`let grid_size_lon = (360.0 / step.0) as usize + 1;`.
The float-to-usize cast truncates toward zero and saturates at zero for
negative inputs, which `Int.toNat` of the floor reproduces. -/
def gridSizeLon (step : ℚ) : ℕ := (⌊360 / step⌋).toNat + 1

/-- Number of grid rows (latitudes strictly between the poles); `data.rs`
line 260: `let grid_size_lat = (180.0 / step.0) as usize - 1;`.
Natural subtraction truncates at zero; the source instead underflows `usize`
(a panic in debug builds) when the cast yields 0, and `createGlobeMesh`
treats that case as a failure. -/
def gridSizeLat (step : ℚ) : ℕ := (⌊180 / step⌋).toNat - 1

/-- Vertex index in the globe grid; `data.rs` lines 276-278, macro `v_index`:
`(i_lon + i_lat * grid_size_lon) as u32`. -/
def vIdx (w iLon iLat : ℕ) : ℕ := iLon + iLat * w

/-- Grid vertices of the globe mesh; `data.rs` lines 262-272. Row `iLat` has
latitude `-90 + (iLat+1)*step` and the columns run from longitude -180
in steps of `step` (the accumulating float additions are exact here). -/
def globeGridVertices (step : ℚ) : List LonLatVertex :=
  (List.range (gridSizeLat step)).flatMap fun (iLat : ℕ) =>
    (List.range (gridSizeLon step)).map fun (iLon : ℕ) =>
      ⟨-180 + (iLon : ℚ) * step, -90 + ((iLat : ℚ) + 1) * step⟩

/-- Quad triangles of the globe grid; `data.rs` lines 280-290. Two triangles
per quad, pushed in source order (outer loop over `i_lon`). -/
def globeQuadTris (w h : ℕ) : List (ℕ × ℕ × ℕ) :=
  (List.range w).flatMap fun iLon =>
    (List.range (h - 1)).flatMap fun iLat =>
      [(vIdx w iLon iLat, vIdx w iLon (iLat + 1), vIdx w (iLon + 1) iLat),
       (vIdx w (iLon + 1) iLat, vIdx w iLon (iLat + 1), vIdx w (iLon + 1) (iLat + 1))]

/-- Pole cap triangle fans; `data.rs` lines 297-307. The south cap vertex has
index `w * h` and the north cap vertex index `w * h + 1`. -/
def globeCapTris (w h : ℕ) : List (ℕ × ℕ × ℕ) :=
  (List.range w).flatMap fun iLon =>
    [(vIdx w iLon 0, vIdx w (iLon + 1) 0, w * h),
     (vIdx w iLon (h - 1), vIdx w (iLon + 1) (h - 1), w * h + 1)]

/-- Result of `create_globe_mesh`: the vertex array and the index array
grouped into the triangles in which the source pushes them. -/
structure GlobeMesh where
  vertices : List LonLatVertex
  triangles : List (ℕ × ℕ × ℕ)
deriving DecidableEq, Repr

/-- Flat index array of the mesh, as held by the `u32` index buffer. -/
def GlobeMesh.indexData (m : GlobeMesh) : List ℕ :=
  m.triangles.flatMap fun t => [t.1, t.2.1, t.2.2]

/-- Whether some triangle of the mesh references a vertex twice. -/
def GlobeMesh.hasDegenerateTri (m : GlobeMesh) : Bool :=
  m.triangles.any fun t => t.1 = t.2.1 || t.1 = t.2.2 || t.2.1 = t.2.2

/-- Globe mesh builder; `data.rs` lines 253-313, `create_globe_mesh`.
Returns `none` where the source panics: on the failed assertion
`(360.0 / step.0).fract() == 0.0` (for `step = 0` the division yields
infinity, whose fractional part is NaN, so the assertion also fails), and on
the `usize` underflow of `grid_size_lat - 1` when `grid_size_lat = 0`. -/
def createGlobeMesh (step : ℚ) : Option GlobeMesh :=
  if step = 0 ∨ (360 / step).den ≠ 1 then none
  else if gridSizeLat step = 0 then none
  else some
    { vertices := globeGridVertices step ++ [⟨0, -90⟩, ⟨0, 90⟩],
      triangles := globeQuadTris (gridSizeLon step) (gridSizeLat step)
                ++ globeCapTris (gridSizeLon step) (gridSizeLat step) }

/- ===================================================================
   Vector map builder (src/data.rs, create_map_from_shape_file)
   =================================================================== -/

/-- Geometry record of the polyline source. The source file reader yields
shapes; only `shapefile::Shape::Polyline` is consumed (a list of parts, each
a list of lon/lat points), every other geometry kind falls into the silent
catch-all arm (`data.rs` line 431). -/
inductive Shape where
  | polyline (parts : List (List (ℚ × ℚ)))
  | otherKind
deriving DecidableEq, Repr

/-- Processing of one point of a part; `data.rs` lines 422-428. A vertex is
pushed always, and for every point after the first the two indices
`len - 2, len - 1` are pushed, forming one two-point line segment. -/
def pushPoint (acc : List LonLatVertex × List ℕ) (p : ℕ × (ℚ × ℚ)) :
    List LonLatVertex × List ℕ :=
  let verts := acc.1 ++ [⟨p.2.1, p.2.2⟩]
  if p.1 > 0 then (verts, acc.2 ++ [verts.length - 2, verts.length - 1])
  else (verts, acc.2)

/-- Processing of one polyline part; the enumerated inner loop of
`data.rs` lines 422-428. -/
def addPart (acc : List LonLatVertex × List ℕ) (part : List (ℚ × ℚ)) :
    List LonLatVertex × List ℕ :=
  part.enum.foldl pushPoint acc

/-- Processing of one shape record; `data.rs` lines 419-432. Non-polyline
geometry kinds leave the accumulator untouched. -/
def addShape (acc : List LonLatVertex × List ℕ) : Shape → List LonLatVertex × List ℕ
  | Shape.polyline parts => parts.foldl addPart acc
  | Shape.otherKind => acc

/-- Vector map builder; `data.rs` lines 403-440, `create_map_from_shape_file`,
with the shapefile reading abstracted to the list of shapes it yields.
Returns the vertex array and the index array (interpreted pairwise as
two-point line segments, primitive type `LinesList`). -/
def createMapFromShapeFile (shapes : List Shape) : List LonLatVertex × List ℕ :=
  shapes.foldl addShape ([], [])

/-- Grouping of a `LinesList` index array into its two-point segments. -/
def linePairs : List ℕ → List (ℕ × ℕ)
  | a :: b :: rest => (a, b) :: linePairs rest
  | _ => []

/-- Modelled from the spec: the segments one part must produce — one segment
per consecutive point pair, indices contiguous from the offset at which the
part begins in the vertex array. -/
def partSegs (off len : ℕ) : List (ℕ × ℕ) :=
  (List.range (len - 1)).map fun k => (off + k, off + k + 1)

/-- Modelled from the spec: segments of a list of parts laid out one after
another starting at a given vertex offset. -/
def partsSegs (off : ℕ) : List (List (ℚ × ℚ)) → List (ℕ × ℕ)
  | [] => []
  | part :: rest => partSegs off part.length ++ partsSegs (off + part.length) rest

/-- Total number of points of a shape. -/
def Shape.numPoints : Shape → ℕ
  | Shape.polyline parts => (parts.map List.length).sum
  | Shape.otherKind => 0

/-- Modelled from the spec: segments of a whole shape sequence, polylines
occupying consecutive vertex blocks and other geometry kinds skipped;
no segment ever connects two different polylines. -/
def shapesSegs (off : ℕ) : List Shape → List (ℕ × ℕ)
  | [] => []
  | Shape.polyline parts :: rest =>
      partsSegs off parts ++ shapesSegs (off + (Shape.polyline parts).numPoints) rest
  | Shape.otherKind :: rest => shapesSegs off rest

/-- Flat index list produced for one part whose vertices start at the given
offset: the segments of `partSegs`, flattened. -/
def partIdxs (off len : ℕ) : List ℕ :=
  (List.range (len - 1)).flatMap fun k => [off + k, off + k + 1]

/-- Flat index list of a list of parts laid out consecutively. -/
def partsIdxs (off : ℕ) : List (List (ℚ × ℚ)) → List ℕ
  | [] => []
  | part :: rest => partIdxs off part.length ++ partsIdxs (off + part.length) rest

/-- Flat index list of a whole shape sequence. -/
def shapesIdxs (off : ℕ) : List Shape → List ℕ
  | [] => []
  | Shape.polyline parts :: rest =>
      partsIdxs off parts ++ shapesIdxs (off + (Shape.polyline parts).numPoints) rest
  | Shape.otherKind :: rest => shapesIdxs off rest

/-- Vertices contributed by one shape. -/
def Shape.vertexList : Shape → List LonLatVertex
  | Shape.polyline parts => parts.flatMap fun part => part.map fun p => ⟨p.1, p.2⟩
  | Shape.otherKind => []

/- ===================================================================
   Render target (src/draw_buffer.rs)
   =================================================================== -/

/-- Sampling mode; `draw_buffer.rs`, enum `Sampling`. -/
inductive Sampling where
  | single
  | multi
deriving DecidableEq, Repr

/-- GPU-backed surface. The `tag` is the allocation identity: every call of
`Texture2d::empty_with_format` (and the multisampled and depth variants)
yields a fresh texture object, modelled by a fresh tag from an allocation
counter. -/
structure Surface where
  tag : ℕ
  width : ℕ
  height : ℕ
deriving DecidableEq, Repr

/-- Texture table of the imgui renderer: display handles (`TextureId`
values) mapped to the storage surface registered under them, plus the
counter generating fresh handles on `insert`. -/
structure Renderer where
  nextId : ℕ
  table : List (ℕ × ℕ)
deriving DecidableEq, Repr

/-- The `Textures::insert` call of `draw_buffer.rs` line 271: registers a
surface under a fresh handle. -/
def Renderer.insert (r : Renderer) (surfTag : ℕ) : ℕ × Renderer :=
  (r.nextId, { nextId := r.nextId + 1, table := r.table ++ [(r.nextId, surfTag)] })

/-- The `Textures::replace` call of `draw_buffer.rs` line 273: re-registers a
surface under an existing handle, in place. -/
def Renderer.replace (r : Renderer) (id surfTag : ℕ) : Renderer :=
  { r with table := r.table.map fun e => if e.1 = id then (id, surfTag) else e }

/-- Lookup of the surface registered under a handle. -/
def Renderer.lookup (r : Renderer) (id : ℕ) : Option ℕ :=
  (r.table.find? fun e => e.1 == id).map Prod.snd

/-- GPU environment threaded through surface creation: the renderer texture
table and the allocation counter producing fresh surface tags. -/
structure GpuEnv where
  renderer : Renderer
  nextTag : ℕ
deriving DecidableEq, Repr

/-- State of `DrawBuffer` (`draw_buffer.rs`): external display handle,
sampling mode of the draw surfaces, draw and depth surfaces, and the
always-single-sampled storage surface. -/
structure DrawBuf where
  id : ℕ
  sampling : Sampling
  drawSurf : Surface
  depthSurf : Surface
  storageSurf : Surface
deriving DecidableEq, Repr

/-- The associated function `DrawBuffer::create` (`draw_buffer.rs` lines
205-279): allocates draw and depth surfaces per the sampling mode, a fresh
single-sampled storage surface of the same size, and registers the storage
surface with the renderer — under a fresh handle when `prevId` is `none`, in
place of the previous registration (same handle) otherwise. -/
def DrawBuf.create (sampling : Sampling) (prevId : Option ℕ) (width height : ℕ)
    (env : GpuEnv) : DrawBuf × GpuEnv :=
  let drawSurf : Surface := ⟨env.nextTag, width, height⟩
  let depthSurf : Surface := ⟨env.nextTag + 1, width, height⟩
  let storageSurf : Surface := ⟨env.nextTag + 2, width, height⟩
  let idRenderer : ℕ × Renderer :=
    match prevId with
    | none => env.renderer.insert storageSurf.tag
    | some prev => (prev, env.renderer.replace prev storageSurf.tag)
  (⟨idRenderer.1, sampling, drawSurf, depthSurf, storageSurf⟩,
   ⟨idRenderer.2, env.nextTag + 3⟩)

/-- Constructor `DrawBuffer::new` (`draw_buffer.rs` lines 139-167); initial
size is `INITIAL_DRAW_BUF_SIZE = 256`. -/
def DrawBuf.new (sampling : Sampling) (env : GpuEnv) : DrawBuf × GpuEnv :=
  DrawBuf.create sampling none 256 256 env

/-- Constructor `DrawBuffer::new_with_size` (`draw_buffer.rs` lines 169-199). -/
def DrawBuf.newWithSize (sampling : Sampling) (env : GpuEnv) (width height : ℕ) :
    DrawBuf × GpuEnv :=
  DrawBuf.create sampling none width height env

/-- Method `DrawBuffer::update_size` (`draw_buffer.rs` lines 282-305): when
the requested size differs from the storage surface size, all surfaces are
created anew and re-registered under the same handle and `true` is returned;
otherwise nothing happens and `false` is returned. -/
def DrawBuf.updateSize (db : DrawBuf) (env : GpuEnv) (width height : ℕ) :
    DrawBuf × GpuEnv × Bool :=
  if width ≠ db.storageSurf.width ∨ height ≠ db.storageSurf.height then
    let r := DrawBuf.create db.sampling (some db.id) width height env
    (r.1, r.2, true)
  else
    (db, env, false)

/-- Method `DrawBuffer::set_sampling` (`draw_buffer.rs` lines 69-82):
recreates the surfaces at the current storage size with the new sampling
mode, re-registering under the same handle. -/
def DrawBuf.setSampling (db : DrawBuf) (env : GpuEnv) (sampling : Sampling) :
    DrawBuf × GpuEnv :=
  DrawBuf.create sampling (some db.id) db.storageSurf.width db.storageSurf.height env

/-- Well-formedness of the environment: every handle in the texture table
was handed out by the handle counter. -/
def GpuEnvWf (env : GpuEnv) : Prop :=
  ∀ e ∈ env.renderer.table, e.1 < env.renderer.nextId

/-- Well-formedness of a draw buffer against the environment: all surface
tags were handed out by the allocation counter, and the display handle is
registered against the storage surface. -/
def DrawBufWf (db : DrawBuf) (env : GpuEnv) : Prop :=
  db.drawSurf.tag < env.nextTag ∧ db.depthSurf.tag < env.nextTag ∧
    db.storageSurf.tag < env.nextTag ∧
    Renderer.lookup env.renderer db.id = some db.storageSurf.tag

instance (env : GpuEnv) : Decidable (GpuEnvWf env) := by
  unfold GpuEnvWf; infer_instance

instance (db : DrawBuf) (env : GpuEnv) : Decidable (DrawBufWf db env) := by
  unfold DrawBufWf; infer_instance

/- ===================================================================
   Camera / orientation model (src/views/base.rs)
   =================================================================== -/

noncomputable section

/-- Rotation mode; `views/base.rs`, enum `DragRotation`. -/
inductive DragRotation where
  | nsew
  | free
deriving DecidableEq, Repr

/-- Display mode; `views/base.rs`, enum `ViewMode`. -/
inductive ViewMode where
  | vectorMap
  | globeTexture
deriving DecidableEq, Repr

/-- Vector in 3-space, as `cgmath::Vector3<f64>`, with `f64` idealised
to the reals. -/
structure Vec3 where
  x : ℝ
  y : ℝ
  z : ℝ

/-- Cross product, as `cgmath::Vector3::cross`. -/
def Vec3.cross (a b : Vec3) : Vec3 :=
  ⟨a.y * b.z - a.z * b.y, a.z * b.x - a.x * b.z, a.x * b.y - a.y * b.x⟩

/-- Magnitude, as `cgmath::InnerSpace::magnitude` (square root of the dot
product with itself). -/
def Vec3.magnitude (v : Vec3) : ℝ :=
  Real.sqrt (v.x * v.x + v.y * v.y + v.z * v.z)

/-- Normalization, as `cgmath::InnerSpace::normalize`: the vector scaled by
one over its magnitude. A zero vector has magnitude zero; the source then
divides zero by zero (NaN components in `f64`; the junk value 0 in ℝ). -/
def Vec3.normalize (v : Vec3) : Vec3 :=
  ⟨v.x * (1 / v.magnitude), v.y * (1 / v.magnitude), v.z * (1 / v.magnitude)⟩

/-- Rotation of 3-space, as `cgmath::Basis3<f64>`, carried as its 3 by 3
matrix in row-major fields (`mRC` is row R, column C). -/
structure Mat3 where
  m00 : ℝ
  m01 : ℝ
  m02 : ℝ
  m10 : ℝ
  m11 : ℝ
  m12 : ℝ
  m20 : ℝ
  m21 : ℝ
  m22 : ℝ

/-- Identity rotation, `Basis3::one()`. -/
def Mat3.id : Mat3 := ⟨1, 0, 0, 0, 1, 0, 0, 0, 1⟩

/-- Matrix product; composition of rotations `a * b` (apply `b` first). -/
def Mat3.mul (a b : Mat3) : Mat3 :=
  ⟨a.m00 * b.m00 + a.m01 * b.m10 + a.m02 * b.m20,
   a.m00 * b.m01 + a.m01 * b.m11 + a.m02 * b.m21,
   a.m00 * b.m02 + a.m01 * b.m12 + a.m02 * b.m22,
   a.m10 * b.m00 + a.m11 * b.m10 + a.m12 * b.m20,
   a.m10 * b.m01 + a.m11 * b.m11 + a.m12 * b.m21,
   a.m10 * b.m02 + a.m11 * b.m12 + a.m12 * b.m22,
   a.m20 * b.m00 + a.m21 * b.m10 + a.m22 * b.m20,
   a.m20 * b.m01 + a.m21 * b.m11 + a.m22 * b.m21,
   a.m20 * b.m02 + a.m21 * b.m12 + a.m22 * b.m22⟩

/-- Rotation about the vertical (Y) axis, `cgmath::Rotation3::from_angle_y`
(cgmath builds it column-major; these are the same entries row-major). -/
def fromAngleY (a : ℝ) : Mat3 :=
  ⟨Real.cos a, 0, Real.sin a,
   0, 1, 0,
   -Real.sin a, 0, Real.cos a⟩

/-- Rotation about the polar (Z) axis, `cgmath::Rotation3::from_angle_z`. -/
def fromAngleZ (a : ℝ) : Mat3 :=
  ⟨Real.cos a, -Real.sin a, 0,
   Real.sin a, Real.cos a, 0,
   0, 0, 1⟩

/-- Axis-angle rotation, `cgmath::Rotation3::from_axis_angle` (the Rodrigues
matrix, transcribed entry for entry from cgmath, row-major). It is a unit
rotation only for a unit axis; the source passes the axis unchecked. -/
def fromAxisAngle (axis : Vec3) (angle : ℝ) : Mat3 :=
  let s := Real.sin angle
  let c := Real.cos angle
  ⟨(1 - c) * axis.x * axis.x + c,
   (1 - c) * axis.x * axis.y - s * axis.z,
   (1 - c) * axis.x * axis.z + s * axis.y,
   (1 - c) * axis.x * axis.y + s * axis.z,
   (1 - c) * axis.y * axis.y + c,
   (1 - c) * axis.y * axis.z - s * axis.x,
   (1 - c) * axis.x * axis.z - s * axis.y,
   (1 - c) * axis.y * axis.z + s * axis.x,
   (1 - c) * axis.z * axis.z + c⟩

/-- GPU work done by one `ViewBase::render` call, recorded as events:
the draw pass into the draw buffer (clear plus main mesh draw), the optional
graticule overlay draw, and the resolve into the storage buffer
(`DrawBuffer::update_storage_buf`). -/
inductive RenderEvent where
  | drawPass (mode : ViewMode)
  | graticulePass
  | resolve
deriving DecidableEq, Repr

/-- Per-view camera and view state; `views/base.rs`, struct `ViewBase`.
The GL buffer and program references of the source are shared immutable
resources and are not part of the mutable state; the GPU side effects of
`render` are recorded in `log`. -/
structure ViewBase where
  uniqueId : ℕ
  orientation : Mat3
  drawGraticule : Bool
  whRatio : ℝ
  angleNs : ℝ
  angleEw : ℝ
  viewMode : ViewMode
  zoom : ℝ
  dragRotation : DragRotation
  log : List RenderEvent

/-- Events emitted by one call of `ViewBase::render` (`views/base.rs` lines
120-177): the draw pass for the current view mode, the graticule overlay
when enabled, then the resolve into the storage buffer. -/
def ViewBase.renderBatch (s : ViewBase) : List RenderEvent :=
  [RenderEvent.drawPass s.viewMode]
    ++ (if s.drawGraticule then [RenderEvent.graticulePass] else [])
    ++ [RenderEvent.resolve]

/-- Method `ViewBase::render`: pure state apart from the GPU work, which is
appended to the event log. -/
def ViewBase.render (s : ViewBase) : ViewBase :=
  { s with log := s.log ++ ViewBase.renderBatch s }

/-- Method `ViewBase::zoom_by` (`views/base.rs` lines 91-95). -/
def ViewBase.zoomBy (s : ViewBase) (relativeZoom : ℝ) : ViewBase :=
  let z := s.zoom * relativeZoom
  ViewBase.render { s with zoom := if z < 0.5 then 0.5 else z }

open Classical in
/-- Method `ViewBase::set_orientation` (`views/base.rs` lines 99-108). -/
def ViewBase.setOrientation (s : ViewBase) (orientation : Mat3) : ViewBase :=
  let s1 := if orientation ≠ Mat3.id then { s with dragRotation := DragRotation.free } else s
  ViewBase.render { s1 with orientation := orientation, angleEw := 0, angleNs := 0 }

/-- Method `ViewBase::set_drag_rotation` (`views/base.rs` lines 110-118);
only the switch to NSEW resets the orientation and renders. -/
def ViewBase.setDragRotation (s : ViewBase) (dragRotation : DragRotation) : ViewBase :=
  if dragRotation = DragRotation.nsew then
    ViewBase.render { s with dragRotation := dragRotation, orientation := Mat3.id,
                             angleEw := 0, angleNs := 0 }
  else
    { s with dragRotation := dragRotation }

open Classical in
/-- Constructor `ViewBase::new` (`views/base.rs` lines 190-229); the unique
id and draw buffer allocation are abstracted to the id argument. -/
def ViewBase.new (orientation : Mat3) (uid : ℕ) : ViewBase :=
  { uniqueId := uid,
    orientation := orientation,
    drawGraticule := true,
    whRatio := 1,
    angleNs := 0,
    angleEw := 0,
    viewMode := ViewMode.globeTexture,
    zoom := 1,
    dragRotation :=
      if orientation ≠ Mat3.id then DragRotation.free else DragRotation.nsew,
    log := [] }

/-- Method `ViewBase::rotate_by_dragging` (`views/base.rs` lines 233-266);
`dragStart` and `dragEnd` are the normalized mouse positions in
[-1, 1] by [-1, 1]. -/
def ViewBase.rotateByDragging (s : ViewBase) (dragStart dragEnd : ℝ × ℝ) : ViewBase :=
  let s1 :=
    match s.dragRotation with
    | DragRotation.free =>
        let startVec : Vec3 := ⟨1, dragStart.1, dragStart.2⟩
        let endVec : Vec3 := ⟨1, dragEnd.1, dragEnd.2⟩
        let axisOfRotation := Vec3.normalize (Vec3.cross startVec endVec)
        let angle := 1 / s.zoom *
          Real.sqrt ((dragStart.1 - dragEnd.1) ^ 2 + (dragStart.2 - dragEnd.2) ^ 2)
        let rotation := fromAxisAngle axisOfRotation angle
        { s with orientation := Mat3.mul rotation s.orientation }
    | DragRotation.nsew =>
        let newAngleNs := s.angleNs + 1 / s.zoom * (dragStart.2 - dragEnd.2)
        let angleNs := if |newAngleNs| ≤ Real.pi / 2 then newAngleNs else s.angleNs
        let angleEw := s.angleEw + 1 / s.zoom * (dragEnd.1 - dragStart.1)
        { s with angleNs := angleNs, angleEw := angleEw,
                 orientation := Mat3.mul (fromAngleY angleNs) (fromAngleZ angleEw) }
  ViewBase.render s1

/-- One camera-mutating operation of the external interface. -/
inductive ViewOp where
  | setMode (d : DragRotation)
  | setOrient (q : Mat3)
  | zoom (f : ℝ)
  | drag (a b : ℝ × ℝ)

/-- Application of one operation to a view. -/
def applyOp (s : ViewBase) : ViewOp → ViewBase
  | ViewOp.setMode d => ViewBase.setDragRotation s d
  | ViewOp.setOrient q => ViewBase.setOrientation s q
  | ViewOp.zoom f => ViewBase.zoomBy s f
  | ViewOp.drag a b => ViewBase.rotateByDragging s a b

/-- States of a view reachable from view creation by any sequence of the
camera-mutating operations. -/
inductive Reachable : ViewBase → Prop
  | create (q : Mat3) (uid : ℕ) : Reachable (ViewBase.new q uid)
  | step (s : ViewBase) (op : ViewOp) : Reachable s → Reachable (applyOp s op)

/- ===================================================================
   Spec-side definitions used to state the claims
   =================================================================== -/

/-- Modelled from the spec: the free-mode rotation axis,
normalize(cross((1, start.x, start.y), (1, end.x, end.y))). -/
def specAxis (dragStart dragEnd : ℝ × ℝ) : Vec3 :=
  Vec3.normalize (Vec3.cross ⟨1, dragStart.1, dragStart.2⟩ ⟨1, dragEnd.1, dragEnd.2⟩)

/-- Modelled from the spec: the free-mode rotation angle,
(1/zoom) times the Euclidean norm of (end - start). -/
def specAngle (zoom : ℝ) (dragStart dragEnd : ℝ × ℝ) : ℝ :=
  1 / zoom * Real.sqrt ((dragEnd.1 - dragStart.1) ^ 2 + (dragEnd.2 - dragStart.2) ^ 2)

/-- The orientation invariant exactly as the spec states it: in NSEW mode
the orientation is the composition of the two angle rotations, and in free
mode both accumulated angles are held at zero. -/
def specOrientInvariant (s : ViewBase) : Prop :=
  (s.dragRotation = DragRotation.nsew →
    s.orientation = Mat3.mul (fromAngleY s.angleNs) (fromAngleZ s.angleEw)) ∧
  (s.dragRotation = DragRotation.free → s.angleNs = 0 ∧ s.angleEw = 0)

/-- The NSEW half of the orientation invariant (the part the code maintains). -/
def nsewOrientInvariant (s : ViewBase) : Prop :=
  s.dragRotation = DragRotation.nsew →
    s.orientation = Mat3.mul (fromAngleY s.angleNs) (fromAngleZ s.angleEw)

/-- A view operation re-rendered the view: the log grew by events containing
a draw pass into the draw buffer with a resolve into the storage buffer as
the final event. -/
def rendersAfter (s t : ViewBase) : Prop :=
  ∃ evs, t.log = s.log ++ evs ∧ (∃ m, RenderEvent.drawPass m ∈ evs) ∧
    evs.getLast? = some RenderEvent.resolve

/-- Folding a sequence of drags over a view state. -/
def dragFold (s : ViewBase) (drags : List ((ℝ × ℝ) × (ℝ × ℝ))) : ViewBase :=
  drags.foldl (fun t p => ViewBase.rotateByDragging t p.1 p.2) s

/-- Iterated wheel zoom: n applications of `zoom_by` with the same factor. -/
def zoomSeq (s : ViewBase) (f : ℝ) : ℕ → ViewBase
  | 0 => s
  | n + 1 => ViewBase.zoomBy (zoomSeq s f n) f

/-- The drag guard of the GUI caller (`gui/mod.rs` line 277): the drag is
forwarded to `rotate_by_dragging` only when the mouse delta is nonzero in at
least one component. -/
def guiDragApplies (delta : ℝ × ℝ) : Prop := delta.1 ≠ 0 ∨ delta.2 ≠ 0

/-- Drag end point computed by the GUI caller (`gui/mod.rs` lines 283-286)
from the start point, the mouse delta and the logical panel size. -/
def guiDragEnd (dragStart delta size : ℝ × ℝ) : ℝ × ℝ :=
  (dragStart.1 + 2 * delta.1 / size.1, dragStart.2 - 2 * delta.2 / size.2)

end

/- ===================================================================
   Theorems
   =================================================================== -/

/-- Helper: `zoom_by` computes exactly the floored product. -/
theorem ViewBase.zoomBy_zoom (s : ViewBase) (f : ℝ) :
    (ViewBase.zoomBy s f).zoom = max (s.zoom * f) 0.5 := by
  simp only [ViewBase.zoomBy, ViewBase.render]
  split
  · next h => exact (max_eq_right h.le).symm
  · next h => exact (max_eq_left (not_lt.mp h)).symm

/-- Helper: `zoom_by` leaves mode, orientation and angles alone. -/
theorem ViewBase.zoomBy_fields (s : ViewBase) (f : ℝ) :
    (ViewBase.zoomBy s f).dragRotation = s.dragRotation ∧
    (ViewBase.zoomBy s f).orientation = s.orientation ∧
    (ViewBase.zoomBy s f).angleNs = s.angleNs ∧
    (ViewBase.zoomBy s f).angleEw = s.angleEw := by
  simp [ViewBase.zoomBy, ViewBase.render]

/-- Helper: iterated zoom stays below the geometric envelope. -/
theorem zoomSeq_zoom_le (s : ViewBase) (n : ℕ) :
    (zoomSeq s 0.1 n).zoom ≤ max (s.zoom * 0.1 ^ n) 0.5 := by
  induction n with
  | zero => simp [zoomSeq]
  | succ n ih =>
      have h1 : (zoomSeq s 0.1 (n + 1)).zoom = max ((zoomSeq s 0.1 n).zoom * 0.1) 0.5 :=
        ViewBase.zoomBy_zoom _ _
      have h2 : (zoomSeq s 0.1 n).zoom * 0.1 ≤ max (s.zoom * 0.1 ^ n) 0.5 * 0.1 :=
        mul_le_mul_of_nonneg_right ih (by norm_num)
      have h3 : max (s.zoom * 0.1 ^ n) 0.5 * (0.1 : ℝ)
          = max (s.zoom * 0.1 ^ n * 0.1) (0.5 * 0.1) :=
        max_mul_of_nonneg _ _ (by norm_num)
      rw [h1]
      refine max_le (le_trans h2 ?_) (le_max_right _ _)
      rw [h3]
      refine max_le ?_ ?_
      · refine le_max_of_le_left ?_
        rw [mul_assoc, ← pow_succ]
      · exact le_max_of_le_right (by norm_num)

/-- C8. Zoom floor: `zoom_by` multiplies the zoom by the factor and clamps
the result below at 0.5 with no upper bound, and repeated `zoom_by(0.1)`
applications reach exactly 0.5 and never go lower, from any zoom at least
0.5. -/
theorem zoom_floor_and_convergence :
    (∀ (s : ViewBase) (f : ℝ), (ViewBase.zoomBy s f).zoom = max (s.zoom * f) 0.5) ∧
    (∀ s : ViewBase, 0.5 ≤ s.zoom → ∀ n : ℕ, 0.5 ≤ (zoomSeq s 0.1 n).zoom) ∧
    (∀ s : ViewBase, 0.5 ≤ s.zoom →
      ∃ N : ℕ, ∀ m : ℕ, N ≤ m → (zoomSeq s 0.1 m).zoom = 0.5) := by
  have hlow : ∀ s : ViewBase, 0.5 ≤ s.zoom → ∀ n : ℕ, 0.5 ≤ (zoomSeq s 0.1 n).zoom := by
    intro s hs n
    cases n with
    | zero => simpa [zoomSeq] using hs
    | succ n =>
        have h1 : (zoomSeq s 0.1 (n + 1)).zoom = max ((zoomSeq s 0.1 n).zoom * 0.1) 0.5 :=
          ViewBase.zoomBy_zoom _ _
        rw [h1]; exact le_max_right _ _
  refine ⟨fun s f => ViewBase.zoomBy_zoom s f, hlow, ?_⟩
  intro s hs
  obtain ⟨N, hN⟩ := pow_unbounded_of_one_lt (2 * s.zoom) (by norm_num : (1 : ℝ) < 10)
  refine ⟨N, fun m hm => ?_⟩
  have henv := zoomSeq_zoom_le s m
  have hpow : (0.1 : ℝ) ^ m ≤ 0.1 ^ N :=
    pow_le_pow_of_le_one (by norm_num) (by norm_num) hm
  have hzpos : (0 : ℝ) ≤ s.zoom := le_trans (by norm_num) hs
  have h10 : (0 : ℝ) < 10 ^ N := by positivity
  have hNbound : s.zoom * (0.1 : ℝ) ^ N < 0.5 := by
    have : (0.1 : ℝ) ^ N = (10 ^ N)⁻¹ := by
      rw [show (0.1 : ℝ) = 10⁻¹ by norm_num, inv_pow]
    rw [this, ← div_eq_mul_inv, div_lt_iff₀ h10]
    linarith
  have hsmall : s.zoom * (0.1 : ℝ) ^ m ≤ 0.5 :=
    le_trans (mul_le_mul_of_nonneg_left hpow hzpos) hNbound.le
  have hup : (zoomSeq s 0.1 m).zoom ≤ 0.5 := by
    refine le_trans henv ?_
    exact max_le hsmall le_rfl
  exact le_antisymm hup (hlow s hs m)

/-- C8 witness at zoom 1. -/
theorem zoom_floor_witness :
    (0.5 : ℝ) ≤ (ViewBase.new Mat3.id 0).zoom ∧
    ∀ n : ℕ, 0.5 ≤ (zoomSeq (ViewBase.new Mat3.id 0) 0.1 n).zoom := by
  have h : (0.5 : ℝ) ≤ (ViewBase.new Mat3.id 0).zoom := by
    simp [ViewBase.new]; norm_num
  exact ⟨h, zoom_floor_and_convergence.2.1 _ h⟩

/-- C4. Round trip through `set_orientation(q); set_mode(NSEW)` forces the
orientation to the identity, clears both accumulated angles and sets NSEW
mode, for every starting state and every q; switching to free mode leaves
the orientation untouched. -/
theorem set_mode_nsew_round_trip :
    (∀ (s : ViewBase) (q : Mat3),
      (ViewBase.setDragRotation (ViewBase.setOrientation s q)
          DragRotation.nsew).orientation = Mat3.id ∧
      (ViewBase.setDragRotation (ViewBase.setOrientation s q)
          DragRotation.nsew).angleNs = 0 ∧
      (ViewBase.setDragRotation (ViewBase.setOrientation s q)
          DragRotation.nsew).angleEw = 0 ∧
      (ViewBase.setDragRotation (ViewBase.setOrientation s q)
          DragRotation.nsew).dragRotation = DragRotation.nsew) ∧
    (∀ s : ViewBase,
      (ViewBase.setDragRotation s DragRotation.free).orientation = s.orientation) := by
  constructor
  · intro s q
    refine ⟨?_, ?_, ?_, ?_⟩ <;> simp [ViewBase.setDragRotation, ViewBase.render]
  · intro s
    simp [ViewBase.setDragRotation, ViewBase.render]

/-- Helper: applying `render` to a state whose log agrees with `s` yields a
state that `rendersAfter s`. -/
theorem render_rendersAfter (s s1 : ViewBase) (h : s1.log = s.log) :
    rendersAfter s (ViewBase.render s1) := by
  refine ⟨ViewBase.renderBatch s1, by simp [ViewBase.render, h], ⟨s1.viewMode, ?_⟩, ?_⟩
  · simp [ViewBase.renderBatch]
  · cases hg : s1.drawGraticule <;> simp [ViewBase.renderBatch, hg]

/-- C9 counterexample: switching the rotation mode to free is a mutating
`set_mode` call that does not re-render the view (the event log of a fresh
view is unchanged, with no draw pass and no resolve). -/
theorem set_mode_free_no_render :
    ¬ rendersAfter (ViewBase.new Mat3.id 0)
      (ViewBase.setDragRotation (ViewBase.new Mat3.id 0) DragRotation.free) := by
  rintro ⟨evs, hlog, ⟨m, hm⟩, -⟩
  have hnil : (ViewBase.setDragRotation (ViewBase.new Mat3.id 0)
      DragRotation.free).log = (ViewBase.new Mat3.id 0).log := by
    simp [ViewBase.setDragRotation]
  rw [hnil] at hlog
  have hevs : evs = [] := by
    have h2 : (ViewBase.new Mat3.id 0).log ++ evs = (ViewBase.new Mat3.id 0).log ++ [] := by
      rw [List.append_nil]; exact hlog.symm
    exact List.append_cancel_left h2
  subst hevs
  simp at hm

/-- C9 amended: `zoom_by`, `set_orientation`, `rotate_by_drag` and
`set_mode(NSEW)` each re-render the owning view before returning (a draw
pass followed by a final resolve is appended to the log), for every argument
and every starting state; `set_mode(free)` alone performs no render. -/
theorem mutations_render :
    (∀ (s : ViewBase) (f : ℝ), rendersAfter s (ViewBase.zoomBy s f)) ∧
    (∀ (s : ViewBase) (q : Mat3), rendersAfter s (ViewBase.setOrientation s q)) ∧
    (∀ (s : ViewBase) (a b : ℝ × ℝ), rendersAfter s (ViewBase.rotateByDragging s a b)) ∧
    (∀ s : ViewBase, rendersAfter s (ViewBase.setDragRotation s DragRotation.nsew)) ∧
    (∀ s : ViewBase, (ViewBase.setDragRotation s DragRotation.free).log = s.log) := by
  refine ⟨?_, ?_, ?_, ?_, ?_⟩
  · intro s f
    exact render_rendersAfter s _ rfl
  · intro s q
    refine render_rendersAfter s _ ?_
    by_cases h : q ≠ Mat3.id <;> simp [ViewBase.setOrientation, h]
  · intro s a b
    cases h : s.dragRotation <;>
      simpa [ViewBase.rotateByDragging, h] using render_rendersAfter s _ rfl
  · intro s
    simpa [ViewBase.setDragRotation] using render_rendersAfter s _ rfl
  · intro s
    simp [ViewBase.setDragRotation]

/-- Helper: a drag never changes the rotation mode. -/
theorem ViewBase.rotateByDragging_dragRotation (s : ViewBase) (a b : ℝ × ℝ) :
    (ViewBase.rotateByDragging s a b).dragRotation = s.dragRotation := by
  cases h : s.dragRotation <;> simp [ViewBase.rotateByDragging, h, ViewBase.render]

/-- C2. Free-mode drag rotation: the new orientation is the axis-angle
rotation about normalize(cross((1,start.x,start.y),(1,end.x,end.y))) by
(1/zoom) times the Euclidean norm of end minus start, composed before the
previous orientation; for start (-0.5, 0), end (0.5, 0) the axis is the
polar axis (0,0,1) and the angle at zoom 1 is exactly 1. -/
theorem free_drag_formula :
    (∀ (s : ViewBase) (a b : ℝ × ℝ), s.dragRotation = DragRotation.free →
      (ViewBase.rotateByDragging s a b).orientation
        = Mat3.mul (fromAxisAngle (specAxis a b) (specAngle s.zoom a b)) s.orientation) ∧
    specAxis (-0.5, 0) (0.5, 0) = ⟨0, 0, 1⟩ ∧
    specAngle 1 (-0.5, 0) (0.5, 0) = 1 := by
  refine ⟨?_, ?_, ?_⟩
  · intro s a b h
    have harg : (a.1 - b.1) ^ 2 + (a.2 - b.2) ^ 2
        = (b.1 - a.1) ^ 2 + (b.2 - a.2) ^ 2 := by ring
    simp [ViewBase.rotateByDragging, h, ViewBase.render, specAxis, specAngle, harg]
  · have hc : Vec3.cross ⟨1, -0.5, 0⟩ ⟨1, 0.5, 0⟩ = ⟨0, 0, 1⟩ := by
      simp [Vec3.cross]; norm_num
    have hm : Vec3.magnitude ⟨0, 0, 1⟩ = 1 := by
      simp [Vec3.magnitude]
    simp [specAxis, hc, Vec3.normalize, hm]
  · have h1 : ((0.5 : ℝ) - -0.5) ^ 2 + ((0 : ℝ) - 0) ^ 2 = 1 := by norm_num
    simp [specAngle, h1]
    exact Or.inl (by norm_num)

/-- C2 witness: a fresh view switched to free mode, dragged from (-0.5, 0)
to (0.5, 0). -/
theorem free_drag_formula_witness :
    (ViewBase.rotateByDragging
        (ViewBase.setDragRotation (ViewBase.new Mat3.id 0) DragRotation.free)
        (-0.5, 0) (0.5, 0)).orientation
      = Mat3.mul
          (fromAxisAngle (specAxis (-0.5, 0) (0.5, 0))
            (specAngle (ViewBase.setDragRotation (ViewBase.new Mat3.id 0)
                DragRotation.free).zoom (-0.5, 0) (0.5, 0)))
          (ViewBase.setDragRotation (ViewBase.new Mat3.id 0)
              DragRotation.free).orientation :=
  free_drag_formula.1 _ _ _ (by simp [ViewBase.setDragRotation])

/-- Helper: single NSEW drag keeps the accumulated north-south angle within
the quarter turn, never updating it past the bound. -/
theorem ViewBase.rotateByDragging_angleNs_le (s : ViewBase) (a b : ℝ × ℝ)
    (h : s.dragRotation = DragRotation.nsew) (hns : |s.angleNs| ≤ Real.pi / 2) :
    |(ViewBase.rotateByDragging s a b).angleNs| ≤ Real.pi / 2 := by
  simp only [ViewBase.rotateByDragging, h, ViewBase.render]
  split
  · next hcond => exact hcond
  · next hcond => exact hns

/-- C3. NSEW drag accumulation: each drag adds (1/zoom)(start.y - end.y) to
the north-south angle whenever the sum stays within 90 degrees (and leaves
it unchanged otherwise, so its magnitude never exceeds 90 degrees), adds
(1/zoom)(end.x - start.x) to the east-west angle unclamped, and along every
sequence of drags from a state within the bound the north-south angle stays
within the bound. -/
theorem nsew_drag_clamp :
    ∀ s : ViewBase, s.dragRotation = DragRotation.nsew → |s.angleNs| ≤ Real.pi / 2 →
      (∀ a b : ℝ × ℝ,
        |(ViewBase.rotateByDragging s a b).angleNs| ≤ Real.pi / 2 ∧
        (|s.angleNs + 1 / s.zoom * (a.2 - b.2)| ≤ Real.pi / 2 →
          (ViewBase.rotateByDragging s a b).angleNs
            = s.angleNs + 1 / s.zoom * (a.2 - b.2)) ∧
        (ViewBase.rotateByDragging s a b).angleEw
            = s.angleEw + 1 / s.zoom * (b.1 - a.1)) ∧
      (∀ drags : List ((ℝ × ℝ) × (ℝ × ℝ)),
        |(dragFold s drags).angleNs| ≤ Real.pi / 2) := by
  have hfold : ∀ (drags : List ((ℝ × ℝ) × (ℝ × ℝ))) (s : ViewBase),
      s.dragRotation = DragRotation.nsew → |s.angleNs| ≤ Real.pi / 2 →
      |(dragFold s drags).angleNs| ≤ Real.pi / 2 := by
    intro drags
    induction drags with
    | nil => intro s _ hns; exact hns
    | cons d rest ih =>
        intro s h hns
        have hstep := ViewBase.rotateByDragging_angleNs_le s d.1 d.2 h hns
        have hmode : (ViewBase.rotateByDragging s d.1 d.2).dragRotation
            = DragRotation.nsew := by
          rw [ViewBase.rotateByDragging_dragRotation]; exact h
        exact ih _ hmode hstep
  intro s h hns
  refine ⟨fun a b => ⟨ViewBase.rotateByDragging_angleNs_le s a b h hns, ?_, ?_⟩,
    fun drags => hfold drags s h hns⟩
  · intro hin
    simp only [ViewBase.rotateByDragging, h, ViewBase.render]
    split
    · rfl
    · next hcond => exact absurd hin hcond
  · simp [ViewBase.rotateByDragging, h, ViewBase.render]

/-- C3 witness: a fresh view (NSEW mode, zero angle) after the strong
downward drag from (0, 1) to (0, 0). -/
theorem nsew_drag_clamp_witness :
    |(dragFold (ViewBase.new Mat3.id 0) [((0, 1), (0, 0))]).angleNs| ≤ Real.pi / 2 :=
  (nsew_drag_clamp (ViewBase.new Mat3.id 0)
      (by simp [ViewBase.new])
      (by simp [ViewBase.new]; positivity)).2 [((0, 1), (0, 0))]

/-- C10. Null drag in free mode: the rotation axis is the normalization of
the cross product of two equal vectors, i.e. of the zero vector, whose
magnitude is zero, so the normalization divides by a zero norm and the
resulting axis is the zero vector (NaN components in IEEE arithmetic), not a
unit axis; `rotate_by_dragging` applies the axis-angle formula to it without
any start = end guard; the only protection is the GUI caller, which skips
exactly the drags whose delta is zero in both components. -/
theorem null_drag_unguarded :
    (∀ p : ℝ × ℝ,
      Vec3.cross ⟨1, p.1, p.2⟩ ⟨1, p.1, p.2⟩ = ⟨0, 0, 0⟩ ∧
      (Vec3.cross ⟨1, p.1, p.2⟩ ⟨1, p.1, p.2⟩).magnitude = 0 ∧
      (Vec3.normalize (Vec3.cross ⟨1, p.1, p.2⟩ ⟨1, p.1, p.2⟩)).magnitude = 0) ∧
    (∀ (s : ViewBase) (p : ℝ × ℝ), s.dragRotation = DragRotation.free →
      (ViewBase.rotateByDragging s p p).orientation
        = Mat3.mul (fromAxisAngle (Vec3.normalize ⟨0, 0, 0⟩) 0) s.orientation) ∧
    ¬ guiDragApplies (0, 0) ∧
    (∀ dragStart size : ℝ × ℝ, guiDragEnd dragStart (0, 0) size = dragStart) ∧
    (∀ dragStart delta size : ℝ × ℝ, size.1 ≠ 0 → size.2 ≠ 0 →
      guiDragApplies delta → guiDragEnd dragStart delta size ≠ dragStart) := by
  have hcross : ∀ p : ℝ × ℝ,
      Vec3.cross ⟨1, p.1, p.2⟩ ⟨1, p.1, p.2⟩ = (⟨0, 0, 0⟩ : Vec3) := by
    intro p
    simp only [Vec3.cross, Vec3.mk.injEq]
    refine ⟨by ring, by ring, by ring⟩
  have hmagzero : Vec3.magnitude ⟨0, 0, 0⟩ = 0 := by
    simp [Vec3.magnitude]
  refine ⟨?_, ?_, ?_, ?_, ?_⟩
  · intro p
    refine ⟨hcross p, ?_, ?_⟩
    · rw [hcross p]; exact hmagzero
    · rw [hcross p]
      simp [Vec3.normalize, hmagzero, Vec3.magnitude]
  · intro s p h
    have hzero : (p.1 - p.1) ^ 2 + (p.2 - p.2) ^ 2 = 0 := by ring
    simp [ViewBase.rotateByDragging, h, ViewBase.render, hcross p, hzero]
  · simp [guiDragApplies]
  · intro dragStart size
    simp [guiDragEnd]
  · intro dragStart delta size h1 h2 happ heq
    have hfst : dragStart.1 + 2 * delta.1 / size.1 = dragStart.1 := congrArg Prod.fst heq
    have hsnd : dragStart.2 - 2 * delta.2 / size.2 = dragStart.2 := congrArg Prod.snd heq
    have hd1 : delta.1 = 0 := by
      have hq : 2 * delta.1 / size.1 = 0 := by linarith
      rcases div_eq_zero_iff.mp hq with hz | hz
      · linarith
      · exact absurd hz h1
    have hd2 : delta.2 = 0 := by
      have hq : 2 * delta.2 / size.2 = 0 := by linarith
      rcases div_eq_zero_iff.mp hq with hz | hz
      · linarith
      · exact absurd hz h2
    rcases happ with hne | hne
    · exact hne hd1
    · exact hne hd2

/-- C10 witness: null drag at the concrete point (0.25, -0.5) on a view in
free mode, and the GUI guard at a concrete nonzero delta. -/
theorem null_drag_unguarded_witness :
    ((ViewBase.rotateByDragging
        (ViewBase.setDragRotation (ViewBase.new Mat3.id 0) DragRotation.free)
        (0.25, -0.5) (0.25, -0.5)).orientation
      = Mat3.mul (fromAxisAngle (Vec3.normalize ⟨0, 0, 0⟩) 0)
          (ViewBase.setDragRotation (ViewBase.new Mat3.id 0)
              DragRotation.free).orientation) ∧
    guiDragEnd (0, 0) (1, 0) (2, 2) ≠ (0, 0) :=
  ⟨null_drag_unguarded.2.1 _ (0.25, -0.5) (by simp [ViewBase.setDragRotation]),
   null_drag_unguarded.2.2.2.2 (0, 0) (1, 0) (2, 2)
     (by norm_num) (by norm_num) (Or.inl (by norm_num))⟩

/-- Helper: the composition of the two zero-angle rotations is the
identity rotation. -/
theorem fromAngleY_zero_mul_fromAngleZ_zero :
    Mat3.mul (fromAngleY 0) (fromAngleZ 0) = Mat3.id := by
  simp only [fromAngleY, fromAngleZ, Mat3.mul, Mat3.id, Real.cos_zero, Real.sin_zero,
    Mat3.mk.injEq]
  norm_num

/-- C1 amended: in every reachable state in NSEW mode the orientation equals
the composition of the vertical-axis rotation by the accumulated
north-south angle and the polar-axis rotation by the accumulated east-west
angle. (In free mode the accumulated angles need not be zero.) -/
theorem nsew_invariant_reachable :
    ∀ s : ViewBase, Reachable s → nsewOrientInvariant s := by
  intro s h
  induction h with
  | create q uid =>
      intro hmode
      by_cases hq : q = Mat3.id
      · subst hq
        simp [ViewBase.new, fromAngleY_zero_mul_fromAngleZ_zero]
      · simp [ViewBase.new, hq] at hmode
  | step s op hr ih =>
      cases op with
      | setMode d =>
          cases d with
          | nsew =>
              intro _
              simp [applyOp, ViewBase.setDragRotation, ViewBase.render,
                fromAngleY_zero_mul_fromAngleZ_zero]
          | free =>
              intro hmode
              simp [applyOp, ViewBase.setDragRotation] at hmode
      | setOrient q =>
          intro hmode
          by_cases hq : q = Mat3.id
          · subst hq
            simp [applyOp, ViewBase.setOrientation, ViewBase.render,
              fromAngleY_zero_mul_fromAngleZ_zero]
          · simp [applyOp, ViewBase.setOrientation, ViewBase.render, hq] at hmode
      | zoom f =>
          intro hmode
          obtain ⟨hd, ho, hns, hew⟩ := ViewBase.zoomBy_fields s f
          rw [applyOp] at hmode ⊢
          rw [ho, hns, hew]
          exact ih (hd ▸ hmode)
      | drag a b =>
          intro hmode
          rw [applyOp] at hmode ⊢
          rw [ViewBase.rotateByDragging_dragRotation] at hmode
          simp [ViewBase.rotateByDragging, hmode, ViewBase.render]

/-- C1 witness: a freshly created identity view is reachable and satisfies
the NSEW orientation invariant. -/
theorem nsew_invariant_witness : nsewOrientInvariant (ViewBase.new Mat3.id 0) :=
  nsew_invariant_reachable (ViewBase.new Mat3.id 0) (Reachable.create Mat3.id 0)

/-- C1 counterexample: the invariant exactly as the spec states it (free
mode keeps both accumulated angles at zero) is not preserved: after one
NSEW drag from (0, 1) to (0, 0) the invariant holds, but the reachable
state obtained by then switching to free mode keeps the nonzero
north-south angle, violating the free-mode clause. -/
theorem spec_orient_invariant_not_preserved :
    Reachable (applyOp (ViewBase.rotateByDragging (ViewBase.new Mat3.id 0) (0, 1) (0, 0))
        (ViewOp.setMode DragRotation.free)) ∧
    specOrientInvariant (ViewBase.rotateByDragging (ViewBase.new Mat3.id 0) (0, 1) (0, 0)) ∧
    ¬ specOrientInvariant
        (applyOp (ViewBase.rotateByDragging (ViewBase.new Mat3.id 0) (0, 1) (0, 0))
          (ViewOp.setMode DragRotation.free)) := by
  have hbase : Reachable (ViewBase.rotateByDragging (ViewBase.new Mat3.id 0) (0, 1) (0, 0)) :=
    Reachable.step (ViewBase.new Mat3.id 0) (ViewOp.drag (0, 1) (0, 0))
      (Reachable.create Mat3.id 0)
  have hangle : (ViewBase.rotateByDragging (ViewBase.new Mat3.id 0) (0, 1) (0, 0)).angleNs
      = 1 := by
    simp [ViewBase.rotateByDragging, ViewBase.new, ViewBase.render]
    linarith [Real.two_le_pi]
  refine ⟨Reachable.step _ (ViewOp.setMode DragRotation.free) hbase, ⟨?_, ?_⟩, ?_⟩
  · intro _
    simp [ViewBase.rotateByDragging, ViewBase.new, ViewBase.render]
  · intro hmode
    have : (ViewBase.rotateByDragging (ViewBase.new Mat3.id 0) (0, 1) (0, 0)).dragRotation
        = DragRotation.nsew := by
      rw [ViewBase.rotateByDragging_dragRotation]
      simp [ViewBase.new]
    rw [this] at hmode
    cases hmode
  · intro hinv
    have hmode : (applyOp (ViewBase.rotateByDragging (ViewBase.new Mat3.id 0) (0, 1) (0, 0))
        (ViewOp.setMode DragRotation.free)).dragRotation = DragRotation.free := by
      simp [applyOp, ViewBase.setDragRotation]
    have hzero := (hinv.2 hmode).1
    have hsame : (applyOp (ViewBase.rotateByDragging (ViewBase.new Mat3.id 0) (0, 1) (0, 0))
        (ViewOp.setMode DragRotation.free)).angleNs
        = (ViewBase.rotateByDragging (ViewBase.new Mat3.id 0) (0, 1) (0, 0)).angleNs := by
      simp [applyOp, ViewBase.setDragRotation]
    rw [hsame, hangle] at hzero
    exact one_ne_zero hzero

/-- Helper: replacing the entry of a registered handle makes the lookup
return the new surface. -/
theorem find?_replaceEntry (idv tagv : ℕ) (l : List (ℕ × ℕ))
    (h : (l.find? fun e => e.1 == idv).isSome = true) :
    ((l.map fun e => if e.1 = idv then (idv, tagv) else e).find? fun e => e.1 == idv)
      = some (idv, tagv) := by
  induction l with
  | nil => simp at h
  | cons a l ih =>
      by_cases ha : a.1 = idv
      · simp [ha]
      · rw [List.find?_cons_of_neg _ (by simpa using ha)] at h
        simpa [List.find?_cons_of_neg, ha] using ih h

/-- Helper: replacing an entry keeps all table keys. -/
theorem replaceEntry_keys (idv tagv : ℕ) (l : List (ℕ × ℕ)) :
    ∀ e ∈ l.map fun e => if e.1 = idv then (idv, tagv) else e, ∃ e0 ∈ l, e.1 = e0.1 := by
  intro e he
  obtain ⟨e0, he0, heq⟩ := List.mem_map.mp he
  refine ⟨e0, he0, ?_⟩
  by_cases h0 : e0.1 = idv
  · rw [← heq, if_pos h0, h0]
  · rw [← heq, if_neg h0]

/-- C5. Render target resize: resizing to the current storage-surface size
returns false and changes nothing at all; resizing to a different size
returns true and reallocates the draw, depth and storage surfaces (fresh
identities, new size) while keeping the external handle value unchanged and
re-registering it against the new storage surface, and the resulting state
is again well formed; a sampling-mode change also keeps the handle value. -/
theorem update_size_replaces_in_place :
    ∀ (db : DrawBuf) (env : GpuEnv), GpuEnvWf env → DrawBufWf db env →
      (DrawBuf.updateSize db env db.storageSurf.width db.storageSurf.height
        = (db, env, false)) ∧
      (∀ w h : ℕ, w ≠ db.storageSurf.width ∨ h ≠ db.storageSurf.height →
        (DrawBuf.updateSize db env w h).2.2 = true ∧
        (DrawBuf.updateSize db env w h).1.id = db.id ∧
        (DrawBuf.updateSize db env w h).1.sampling = db.sampling ∧
        (DrawBuf.updateSize db env w h).1.drawSurf.width = w ∧
        (DrawBuf.updateSize db env w h).1.drawSurf.height = h ∧
        (DrawBuf.updateSize db env w h).1.depthSurf.width = w ∧
        (DrawBuf.updateSize db env w h).1.depthSurf.height = h ∧
        (DrawBuf.updateSize db env w h).1.storageSurf.width = w ∧
        (DrawBuf.updateSize db env w h).1.storageSurf.height = h ∧
        (DrawBuf.updateSize db env w h).1.drawSurf.tag ≠ db.drawSurf.tag ∧
        (DrawBuf.updateSize db env w h).1.depthSurf.tag ≠ db.depthSurf.tag ∧
        (DrawBuf.updateSize db env w h).1.storageSurf.tag ≠ db.storageSurf.tag ∧
        Renderer.lookup (DrawBuf.updateSize db env w h).2.1.renderer db.id
          = some (DrawBuf.updateSize db env w h).1.storageSurf.tag ∧
        GpuEnvWf (DrawBuf.updateSize db env w h).2.1 ∧
        DrawBufWf (DrawBuf.updateSize db env w h).1 (DrawBuf.updateSize db env w h).2.1) ∧
      (∀ sm : Sampling, (DrawBuf.setSampling db env sm).1.id = db.id ∧
        Renderer.lookup (DrawBuf.setSampling db env sm).2.renderer db.id
          = some (DrawBuf.setSampling db env sm).1.storageSurf.tag) := by
  intro db env henv hdb
  obtain ⟨hdraw, hdepth, hstor, hlook⟩ := hdb
  have hsome : (env.renderer.table.find? fun e => e.1 == db.id).isSome = true := by
    rcases hfind : env.renderer.table.find? fun e => e.1 == db.id with _ | e
    · rw [Renderer.lookup, hfind] at hlook; simp at hlook
    · rw [hfind]; rfl
  have hreplace : ∀ tagv : ℕ,
      Renderer.lookup (Renderer.replace env.renderer db.id tagv) db.id = some tagv := by
    intro tagv
    rw [Renderer.lookup, Renderer.replace]
    simp only
    rw [find?_replaceEntry db.id tagv _ hsome]
    rfl
  have henvreplace : ∀ tagv : ℕ, GpuEnvWf ⟨Renderer.replace env.renderer db.id tagv,
      env.nextTag + 3⟩ := by
    intro tagv e he
    obtain ⟨e0, he0, hkey⟩ := replaceEntry_keys db.id tagv env.renderer.table e he
    rw [Renderer.replace] at he
    exact hkey ▸ henv e0 he0
  refine ⟨?_, ?_, ?_⟩
  · rw [DrawBuf.updateSize, if_neg (by simp)]
  · intro w h hwh
    have hcond : w ≠ db.storageSurf.width ∨ h ≠ db.storageSurf.height := hwh
    have heq : DrawBuf.updateSize db env w h =
        (⟨db.id, db.sampling, ⟨env.nextTag, w, h⟩, ⟨env.nextTag + 1, w, h⟩,
            ⟨env.nextTag + 2, w, h⟩⟩,
         ⟨Renderer.replace env.renderer db.id (env.nextTag + 2), env.nextTag + 3⟩,
         true) := by
      rw [DrawBuf.updateSize, if_pos hcond]
      rfl
    rw [heq]
    exact ⟨rfl, rfl, rfl, rfl, rfl, rfl, rfl, rfl, rfl,
      show env.nextTag ≠ db.drawSurf.tag by omega,
      show env.nextTag + 1 ≠ db.depthSurf.tag by omega,
      show env.nextTag + 2 ≠ db.storageSurf.tag by omega,
      hreplace _, henvreplace _,
      show env.nextTag < env.nextTag + 3 by omega,
      show env.nextTag + 1 < env.nextTag + 3 by omega,
      show env.nextTag + 2 < env.nextTag + 3 by omega,
      hreplace _⟩
  · intro sm
    exact ⟨rfl, hreplace _⟩

/-- C5 witness: a 100 by 50 single-sampled render target created in a fresh
environment; resizing at the same size is a no-op and resizing to 200 by 50
keeps the handle. -/
theorem update_size_replaces_in_place_witness :
    (DrawBuf.updateSize (DrawBuf.newWithSize Sampling.single ⟨⟨0, []⟩, 0⟩ 100 50).1
        (DrawBuf.newWithSize Sampling.single ⟨⟨0, []⟩, 0⟩ 100 50).2 100 50
      = ((DrawBuf.newWithSize Sampling.single ⟨⟨0, []⟩, 0⟩ 100 50).1,
         (DrawBuf.newWithSize Sampling.single ⟨⟨0, []⟩, 0⟩ 100 50).2, false)) ∧
    (DrawBuf.updateSize (DrawBuf.newWithSize Sampling.single ⟨⟨0, []⟩, 0⟩ 100 50).1
        (DrawBuf.newWithSize Sampling.single ⟨⟨0, []⟩, 0⟩ 100 50).2 200 50).1.id
      = (DrawBuf.newWithSize Sampling.single ⟨⟨0, []⟩, 0⟩ 100 50).1.id := by
  have hwf := update_size_replaces_in_place
    (DrawBuf.newWithSize Sampling.single ⟨⟨0, []⟩, 0⟩ 100 50).1
    (DrawBuf.newWithSize Sampling.single ⟨⟨0, []⟩, 0⟩ 100 50).2
    (by decide) (by decide)
  have hsz : (DrawBuf.newWithSize Sampling.single ⟨⟨0, []⟩, 0⟩ 100 50).1.storageSurf.width
      = 100 ∧
      (DrawBuf.newWithSize Sampling.single ⟨⟨0, []⟩, 0⟩ 100 50).1.storageSurf.height
      = 50 := by decide
  refine ⟨?_, (hwf.2.1 200 50 (by decide)).2.1⟩
  have := hwf.1
  rw [hsz.1, hsz.2] at this
  exact this

/-- Helper: the enumerated point loop, after the first point, appends one
vertex per point and one segment (two indices) per point. -/
theorem enumFrom_foldl_pushPoint (ps : List (ℚ × ℚ)) :
    ∀ (j : ℕ) (V : List LonLatVertex) (I : List ℕ), 1 ≤ j → 1 ≤ V.length →
    (List.enumFrom j ps).foldl pushPoint (V, I)
      = (V ++ ps.map fun p => ⟨p.1, p.2⟩,
         I ++ (List.range ps.length).flatMap fun k => [V.length - 1 + k, V.length + k]) := by
  induction ps with
  | nil => intro j V I hj hV; simp
  | cons p ps ih =>
      intro j V I hj hV
      have hstep : pushPoint (V, I) (j, p)
          = (V ++ [⟨p.1, p.2⟩], I ++ [V.length - 1, V.length]) := by
        have hjpos : j > 0 := hj
        simp [pushPoint, hjpos]
      have hfold : (List.enumFrom j (p :: ps)).foldl pushPoint (V, I)
          = (List.enumFrom (j + 1) ps).foldl pushPoint (V ++ [⟨p.1, p.2⟩],
              I ++ [V.length - 1, V.length]) := by
        rw [show List.enumFrom j (p :: ps) = (j, p) :: List.enumFrom (j + 1) ps from rfl,
          List.foldl_cons, hstep]
      rw [hfold, ih (j + 1) _ _ (by omega) (by simp)]
      have hlam : (fun k => [(V ++ [(⟨p.1, p.2⟩ : LonLatVertex)]).length - 1 + k,
            (V ++ [(⟨p.1, p.2⟩ : LonLatVertex)]).length + k])
          = fun k => [V.length + k, V.length + 1 + k] := by
        funext k
        simp
      rw [hlam]
      have hrange : (List.range (ps.length + 1)).flatMap
            (fun k => [V.length - 1 + k, V.length + k])
          = [V.length - 1, V.length]
            ++ (List.range ps.length).flatMap fun k => [V.length + k, V.length + 1 + k] := by
        rw [List.range_succ_eq_map, List.flatMap_cons,
          List.flatMap_map Nat.succ (fun k => [V.length - 1 + k, V.length + k])]
        have hlam2 : (fun a => [V.length - 1 + Nat.succ a, V.length + Nat.succ a])
            = fun k => [V.length + k, V.length + 1 + k] := by
          funext k
          have h1 : V.length - 1 + Nat.succ k = V.length + k := by omega
          have h2 : V.length + Nat.succ k = V.length + 1 + k := by omega
          rw [h1, h2]
        rw [hlam2]
        simp
      rw [List.length_cons, hrange]
      simp

/-- Helper: processing one part appends its vertices and its within-part
segment indices. -/
theorem addPart_spec (part : List (ℚ × ℚ)) (V : List LonLatVertex) (I : List ℕ) :
    addPart (V, I) part
      = (V ++ part.map fun p => ⟨p.1, p.2⟩, I ++ partIdxs V.length part.length) := by
  cases part with
  | nil => simp [addPart, partIdxs]
  | cons p ps =>
      have h0 : pushPoint (V, I) (0, p) = (V ++ [⟨p.1, p.2⟩], I) := by
        simp [pushPoint]
      have hfold : addPart (V, I) (p :: ps)
          = (List.enumFrom 1 ps).foldl pushPoint (V ++ [⟨p.1, p.2⟩], I) := by
        rw [addPart, show (p :: ps).enum = (0, p) :: List.enumFrom 1 ps from rfl,
          List.foldl_cons, h0]
      rw [hfold, enumFrom_foldl_pushPoint ps 1 _ _ le_rfl (by simp)]
      have hlam : (fun k => [(V ++ [(⟨p.1, p.2⟩ : LonLatVertex)]).length - 1 + k,
            (V ++ [(⟨p.1, p.2⟩ : LonLatVertex)]).length + k])
          = fun k => [V.length + k, V.length + k + 1] := by
        funext k
        have h1 : (V ++ [(⟨p.1, p.2⟩ : LonLatVertex)]).length - 1 + k = V.length + k := by
          simp
        have h2 : (V ++ [(⟨p.1, p.2⟩ : LonLatVertex)]).length + k = V.length + k + 1 := by
          simp; omega
        rw [h1, h2]
      rw [hlam, partIdxs]
      simp

/-- Helper: processing a part list appends all vertices and the consecutive
per-part segment indices. -/
theorem foldl_addPart_spec (parts : List (List (ℚ × ℚ))) :
    ∀ (V : List LonLatVertex) (I : List ℕ),
    parts.foldl addPart (V, I)
      = (V ++ parts.flatMap fun part => part.map fun p => ⟨p.1, p.2⟩,
         I ++ partsIdxs V.length parts) := by
  induction parts with
  | nil => intro V I; simp [partsIdxs]
  | cons part rest ih =>
      intro V I
      rw [List.foldl_cons, addPart_spec, ih, partsIdxs]
      simp

/-- Helper: processing a shape list appends all polyline vertices and their
block-wise segment indices; other geometry kinds contribute nothing. -/
theorem foldl_addShape_spec (shapes : List Shape) :
    ∀ (V : List LonLatVertex) (I : List ℕ),
    shapes.foldl addShape (V, I)
      = (V ++ shapes.flatMap Shape.vertexList, I ++ shapesIdxs V.length shapes) := by
  induction shapes with
  | nil => intro V I; simp [shapesIdxs]
  | cons sh rest ih =>
      intro V I
      cases sh with
      | otherKind =>
          rw [List.foldl_cons, show addShape (V, I) Shape.otherKind = (V, I) from rfl, ih]
          simp [shapesIdxs, Shape.vertexList]
      | polyline parts =>
          rw [List.foldl_cons,
            show addShape (V, I) (Shape.polyline parts) = parts.foldl addPart (V, I) from rfl,
            foldl_addPart_spec, ih]
          have hnum : (parts.flatMap fun part =>
              part.map fun p => (⟨p.1, p.2⟩ : LonLatVertex)).length
              = (Shape.polyline parts).numPoints := by
            rw [List.length_flatMap, Shape.numPoints]
            congr 1
            simp
          rw [shapesIdxs]
          simp [Shape.vertexList, hnum]

/-- Helper: segment grouping distributes over an even-length prefix. -/
theorem linePairs_append : ∀ (I : List ℕ), I.length % 2 = 0 →
    ∀ J : List ℕ, linePairs (I ++ J) = linePairs I ++ linePairs J
  | [], _, J => by simp [linePairs]
  | [a], h, J => by simp at h
  | a :: b :: rest, h, J => by
      have hr : rest.length % 2 = 0 := by
        simp only [List.length_cons] at h
        omega
      simp only [List.cons_append, linePairs, List.length_cons, List.append_eq]
      rw [linePairs_append rest hr J]

/-- Helper: grouping a flattened list of two-element blocks yields the pairs. -/
theorem linePairs_flatMap (f g : ℕ → ℕ) : ∀ l : List ℕ,
    linePairs (l.flatMap fun x => [f x, g x]) = l.map fun x => (f x, g x)
  | [] => rfl
  | x :: xs => by
      rw [List.flatMap_cons,
        show ([f x, g x] ++ xs.flatMap fun x => [f x, g x])
          = f x :: g x :: xs.flatMap (fun x => [f x, g x]) from rfl,
        show linePairs (f x :: g x :: xs.flatMap fun x => [f x, g x])
          = (f x, g x) :: linePairs (xs.flatMap fun x => [f x, g x]) from rfl,
        linePairs_flatMap f g xs, List.map_cons]

/-- Helper: the flattened two-element blocks have even length. -/
theorem pairFlat_length_even (f g : ℕ → ℕ) : ∀ l : List ℕ,
    (l.flatMap fun x => [f x, g x]).length % 2 = 0
  | [] => rfl
  | x :: xs => by
      simp only [List.flatMap_cons, List.cons_append, List.nil_append, List.length_cons]
      have := pairFlat_length_even f g xs
      omega

/-- Helper: a part index block has even length. -/
theorem partIdxs_length_even (off len : ℕ) : (partIdxs off len).length % 2 = 0 :=
  pairFlat_length_even _ _ _

/-- Helper: the index blocks of a part list have even length. -/
theorem partsIdxs_length_even (parts : List (List (ℚ × ℚ))) :
    ∀ off : ℕ, (partsIdxs off parts).length % 2 = 0 := by
  induction parts with
  | nil => intro off; rfl
  | cons part rest ih =>
      intro off
      rw [partsIdxs, List.length_append]
      have h1 := partIdxs_length_even off part.length
      have h2 := ih (off + part.length)
      omega

/-- Helper: grouping one part index block yields exactly the spec segments
of that part. -/
theorem linePairs_partIdxs (off len : ℕ) :
    linePairs (partIdxs off len) = partSegs off len := by
  rw [partIdxs, partSegs]
  exact linePairs_flatMap (fun k => off + k) (fun k => off + k + 1) _

/-- Helper: grouping a part list index block yields exactly the spec
segments. -/
theorem linePairs_partsIdxs (parts : List (List (ℚ × ℚ))) :
    ∀ off : ℕ, linePairs (partsIdxs off parts) = partsSegs off parts := by
  induction parts with
  | nil => intro off; rfl
  | cons part rest ih =>
      intro off
      rw [partsIdxs, partsSegs, linePairs_append _ (partIdxs_length_even _ _),
        linePairs_partIdxs, ih]

/-- Helper: grouping the whole index array yields exactly the spec segments
of the shape sequence. -/
theorem linePairs_shapesIdxs (shapes : List Shape) :
    ∀ off : ℕ, linePairs (shapesIdxs off shapes) = shapesSegs off shapes := by
  induction shapes with
  | nil => intro off; rfl
  | cons sh rest ih =>
      intro off
      cases sh with
      | otherKind => rw [shapesIdxs, shapesSegs, ih]
      | polyline parts =>
          rw [shapesIdxs, shapesSegs,
            linePairs_append _ (partsIdxs_length_even parts off),
            linePairs_partsIdxs, ih]

/-- C7. Vector map building: an empty source yields no vertices and no
indices; in general the vertex array is the concatenation of the polyline
points in order and the emitted segments are exactly one two-point segment
per consecutive point pair within each part of each polyline, contiguous
block by block, so no index pair ever spans two different polylines;
non-polyline geometry records are silently skipped; two 2-point polylines
yield exactly the two segments (0,1) and (2,3), not three. -/
theorem vector_map_segments :
    createMapFromShapeFile [] = ([], []) ∧
    (∀ shapes : List Shape,
      (createMapFromShapeFile shapes).1 = shapes.flatMap Shape.vertexList ∧
      linePairs (createMapFromShapeFile shapes).2 = shapesSegs 0 shapes) ∧
    (∀ pre post : List Shape,
      createMapFromShapeFile (pre ++ Shape.otherKind :: post)
        = createMapFromShapeFile (pre ++ post)) ∧
    linePairs (createMapFromShapeFile
        [Shape.polyline [[(0, 0), (1, 1)]], Shape.polyline [[(2, 2), (3, 3)]]]).2
      = [(0, 1), (2, 3)] := by
  have hmain : ∀ shapes : List Shape,
      createMapFromShapeFile shapes
        = (shapes.flatMap Shape.vertexList, shapesIdxs 0 shapes) := by
    intro shapes
    rw [createMapFromShapeFile, foldl_addShape_spec]
    simp
  refine ⟨rfl, ?_, ?_, ?_⟩
  · intro shapes
    rw [hmain]
    exact ⟨rfl, linePairs_shapesIdxs shapes 0⟩
  · intro pre post
    rw [createMapFromShapeFile, createMapFromShapeFile, List.foldl_append,
      List.foldl_append, List.foldl_cons,
      show ∀ acc : List LonLatVertex × List ℕ, addShape acc Shape.otherKind = acc
        from fun acc => rfl]
  · decide

/-- Helper: membership in the quad triangle list. -/
theorem mem_globeQuadTris {W H : ℕ} {t : ℕ × ℕ × ℕ} (ht : t ∈ globeQuadTris W H) :
    ∃ iLon iLat : ℕ, iLon < W ∧ iLat < H - 1 ∧
      (t = (vIdx W iLon iLat, vIdx W iLon (iLat + 1), vIdx W (iLon + 1) iLat) ∨
       t = (vIdx W (iLon + 1) iLat, vIdx W iLon (iLat + 1),
            vIdx W (iLon + 1) (iLat + 1))) := by
  simp only [globeQuadTris, List.mem_flatMap, List.mem_range, List.mem_cons,
    List.mem_singleton, List.not_mem_nil, or_false] at ht
  obtain ⟨iLon, hLon, iLat, hLat, hcase⟩ := ht
  exact ⟨iLon, iLat, hLon, hLat, hcase⟩

/-- Helper: membership in the pole cap triangle list. -/
theorem mem_globeCapTris {W H : ℕ} {t : ℕ × ℕ × ℕ} (ht : t ∈ globeCapTris W H) :
    ∃ iLon : ℕ, iLon < W ∧
      (t = (vIdx W iLon 0, vIdx W (iLon + 1) 0, W * H) ∨
       t = (vIdx W iLon (H - 1), vIdx W (iLon + 1) (H - 1), W * H + 1)) := by
  simp only [globeCapTris, List.mem_flatMap, List.mem_range, List.mem_cons,
    List.mem_singleton, List.not_mem_nil, or_false] at ht
  obtain ⟨iLon, hLon, hcase⟩ := ht
  exact ⟨iLon, hLon, hcase⟩

/-- Helper: every triangle of the globe mesh references three pairwise
distinct vertices, provided the grid has at least two columns and two rows. -/
theorem globe_tris_distinct {W H : ℕ} (hW : 2 ≤ W) (hH : 2 ≤ H) :
    ∀ t ∈ globeQuadTris W H ++ globeCapTris W H,
      t.1 ≠ t.2.1 ∧ t.1 ≠ t.2.2 ∧ t.2.1 ≠ t.2.2 := by
  intro t ht
  rcases List.mem_append.mp ht with hq | hc
  · obtain ⟨iLon, iLat, hLon, hLat, hcase⟩ := mem_globeQuadTris hq
    have hmul : (iLat + 1) * W = iLat * W + W := by ring
    rcases hcase with h | h <;> subst h <;> simp only [vIdx] <;>
      exact ⟨by omega, by omega, by omega⟩
  · obtain ⟨iLon, hLon, hcase⟩ := mem_globeCapTris hc
    have hmulH : (H - 1) * W + W = W * H := by
      have h1 : H - 1 + 1 = H := by omega
      calc (H - 1) * W + W = (H - 1 + 1) * W := by ring
        _ = H * W := by rw [h1]
        _ = W * H := Nat.mul_comm H W
    have hWH : W * 2 ≤ W * H := Nat.mul_le_mul_left W hH
    rcases hcase with h | h <;> subst h <;> simp only [vIdx] <;>
      exact ⟨by omega, by omega, by omega⟩

/-- Helper: every triangle of the globe mesh references only valid vertex
indices (below the grid size plus the two pole caps). -/
theorem globe_tris_bound {W H : ℕ} (hH : 1 ≤ H) :
    ∀ t ∈ globeQuadTris W H ++ globeCapTris W H,
      t.1 < W * H + 2 ∧ t.2.1 < W * H + 2 ∧ t.2.2 < W * H + 2 := by
  intro t ht
  have hmulH : (H - 1) * W + W = W * H := by
    have h1 : H - 1 + 1 = H := by omega
    calc (H - 1) * W + W = (H - 1 + 1) * W := by ring
      _ = H * W := by rw [h1]
      _ = W * H := Nat.mul_comm H W
  rcases List.mem_append.mp ht with hq | hc
  · obtain ⟨iLon, iLat, hLon, hLat, hcase⟩ := mem_globeQuadTris hq
    have hb1 : (iLat + 1) * W ≤ (H - 1) * W := Nat.mul_le_mul_right W (by omega)
    have hb2 : iLat * W ≤ (iLat + 1) * W := Nat.mul_le_mul_right W (by omega)
    rcases hcase with h | h <;> subst h <;> simp only [vIdx] <;>
      exact ⟨by omega, by omega, by omega⟩
  · obtain ⟨iLon, hLon, hcase⟩ := mem_globeCapTris hc
    rcases hcase with h | h <;> subst h <;> simp only [vIdx] <;>
      exact ⟨by omega, by omega, by omega⟩

/-- Helper: the flat index array is three entries per triangle. -/
theorem tripleFlat_length : ∀ l : List (ℕ × ℕ × ℕ),
    (l.flatMap fun t => [t.1, t.2.1, t.2.2]).length = 3 * l.length
  | [] => rfl
  | t :: ts => by
      simp only [List.flatMap_cons, List.length_append, List.length_cons,
        List.length_nil, List.length_cons]
      have := tripleFlat_length ts
      omega

/-- Helper: a flat map of constant-length blocks over a range. -/
theorem length_flatMap_range {α : Type} (m : ℕ) (g : ℕ → List α)
    (hg : ∀ i, (g i).length = m) : ∀ n, ((List.range n).flatMap g).length = n * m := by
  intro n
  induction n with
  | zero => simp
  | succ k ih =>
      rw [List.range_succ, List.flatMap_append, List.length_append, ih,
        List.flatMap_cons, List.flatMap_nil, List.append_nil, hg, Nat.succ_mul]

/-- Helper: the globe grid has one vertex per row and column pair. -/
theorem globeGridVertices_length (step : ℚ) :
    (globeGridVertices step).length = gridSizeLat step * gridSizeLon step := by
  rw [globeGridVertices]
  exact length_flatMap_range (gridSizeLon step) _
    (fun i => by rw [List.length_map, List.length_range]) (gridSizeLat step)

/-- Helper: every grid vertex latitude lies strictly between the poles. -/
theorem globeGridVertices_lat {step : ℚ} (hpos : 0 < step)
    (hlat : 1 ≤ gridSizeLat step) :
    ∀ v ∈ globeGridVertices step, -90 < v.lat ∧ v.lat < 90 := by
  intro v hv
  simp only [globeGridVertices, List.mem_flatMap, List.mem_range, List.mem_map] at hv
  obtain ⟨iLat, hiLat, iLon, hiLon, hveq⟩ := hv
  have hF2 : 2 ≤ ⌊(180 : ℚ) / step⌋ := by
    have h1 : 2 ≤ (⌊(180 : ℚ) / step⌋).toNat := by
      rw [gridSizeLat] at hlat
      omega
    omega
  have hle : (iLat : ℚ) + 1 ≤ (⌊(180 : ℚ) / step⌋ : ℚ) - 1 := by
    have h2 : iLat + 1 ≤ (⌊(180 : ℚ) / step⌋).toNat - 1 := by
      rw [gridSizeLat] at hiLat hlat
      omega
    have h3 : (iLat : ℤ) + 1 ≤ ⌊(180 : ℚ) / step⌋ - 1 := by omega
    exact_mod_cast h3
  have hfloor : ((⌊(180 : ℚ) / step⌋ : ℚ)) ≤ 180 / step := Int.floor_le _
  have hmulbound : ((iLat : ℚ) + 1) * step ≤ (180 / step - 1) * step :=
    mul_le_mul_of_nonneg_right (by linarith) hpos.le
  have hdiv : (180 : ℚ) / step * step = 180 := div_mul_cancel₀ _ (ne_of_gt hpos)
  have hposmul : (0 : ℚ) < ((iLat : ℚ) + 1) * step := by positivity
  have hlatval : v.lat = -90 + ((iLat : ℚ) + 1) * step := by
    rw [← hveq]
  constructor
  · rw [hlatval]; linarith
  · rw [hlatval]
    have : ((iLat : ℚ) + 1) * step ≤ 180 - step := by
      calc ((iLat : ℚ) + 1) * step ≤ (180 / step - 1) * step := hmulbound
        _ = 180 / step * step - step := by ring
        _ = 180 - step := by rw [hdiv]
    linarith

/-- C6 counterexample: 90 divides 360 evenly, yet the mesh built for step
90 contains the pole-fan triangle (4, 5, 5), which references the south cap
vertex (index 5) twice: with a single latitude row the wrap-around column
index of the last fan triangle collides with the south cap index. -/
theorem globe_mesh_degenerate_at_90 :
    ((360 : ℚ) / 90).den = 1 ∧
    Option.any (fun m => decide ((4, 5, 5) ∈ m.triangles) && m.hasDegenerateTri)
      (createGlobeMesh 90) = true := by
  have hden : ((360 : ℚ) / 90).den = 1 := by
    rw [show (360 : ℚ) / 90 = ((4 : ℤ) : ℚ) by norm_num]
    exact Rat.den_intCast 4
  have hlat : gridSizeLat 90 = 1 := by
    rw [gridSizeLat, show (180 : ℚ) / 90 = ((2 : ℤ) : ℚ) by norm_num, Int.floor_intCast]
    rfl
  have hlon : gridSizeLon 90 = 5 := by
    rw [gridSizeLon, show (360 : ℚ) / 90 = ((4 : ℤ) : ℚ) by norm_num, Int.floor_intCast]
    rfl
  have hm90 : createGlobeMesh 90 = some
      { vertices := globeGridVertices 90 ++ [⟨0, -90⟩, ⟨0, 90⟩],
        triangles := globeQuadTris 5 1 ++ globeCapTris 5 1 } := by
    rw [createGlobeMesh, if_neg (not_or.mpr ⟨by norm_num, by simp [hden]⟩),
      if_neg (by rw [hlat]; omega), hlat, hlon]
  refine ⟨hden, ?_⟩
  rw [hm90]
  decide

/-- C6 amended: the builder fails on a non-integral 360/step (and on
step = 0 and on grids with no latitude row, where the source underflows);
for every step with 360/step integral, step positive and at least one
latitude row, the mesh is the longitude-by-latitude grid of rows strictly
between the poles followed by exactly the two pole-cap vertices, the index
count is divisible by 3 and every index is a valid vertex index; when the
grid has at least two latitude rows, no triangle references the same vertex
twice (with a single row the pole fans degenerate, as at step 90). -/
theorem globe_mesh_structure :
    createGlobeMesh 0 = none ∧
    (∀ step : ℚ, step ≠ 0 → (360 / step).den ≠ 1 → createGlobeMesh step = none) ∧
    (∀ step : ℚ, (360 / step).den = 1 → 0 < step → 1 ≤ gridSizeLat step →
      ∃ m : GlobeMesh, createGlobeMesh step = some m ∧
        m.vertices.length = gridSizeLat step * gridSizeLon step + 2 ∧
        m.vertices.drop (gridSizeLat step * gridSizeLon step) = [⟨0, -90⟩, ⟨0, 90⟩] ∧
        (∀ v ∈ m.vertices.take (gridSizeLat step * gridSizeLon step),
          -90 < v.lat ∧ v.lat < 90) ∧
        m.indexData.length % 3 = 0 ∧
        (∀ i ∈ m.indexData, i < m.vertices.length) ∧
        (2 ≤ gridSizeLat step →
          ∀ t ∈ m.triangles, t.1 ≠ t.2.1 ∧ t.1 ≠ t.2.2 ∧ t.2.1 ≠ t.2.2)) := by
  refine ⟨by simp [createGlobeMesh], ?_, ?_⟩
  · intro step h0 hden
    rw [createGlobeMesh, if_pos (Or.inr hden)]
  · intro step hden hpos hH1
    have hne : ¬ (step = 0 ∨ (360 / step).den ≠ 1) :=
      not_or.mpr ⟨hpos.ne', by simp [hden]⟩
    have hm : createGlobeMesh step = some
        { vertices := globeGridVertices step ++ [⟨0, -90⟩, ⟨0, 90⟩],
          triangles := globeQuadTris (gridSizeLon step) (gridSizeLat step)
                    ++ globeCapTris (gridSizeLon step) (gridSizeLat step) } := by
      rw [createGlobeMesh, if_neg hne, if_neg (by omega)]
    refine ⟨_, hm, ?_, ?_, ?_, ?_, ?_, ?_⟩
    · show (globeGridVertices step ++ ([⟨0, -90⟩, ⟨0, 90⟩] : List LonLatVertex)).length = _
      rw [List.length_append, globeGridVertices_length]
      rfl
    · show (globeGridVertices step ++ ([⟨0, -90⟩, ⟨0, 90⟩] : List LonLatVertex)).drop _ = _
      rw [show gridSizeLat step * gridSizeLon step = (globeGridVertices step).length
          from (globeGridVertices_length step).symm]
      exact List.drop_left _ _
    · show ∀ v ∈ (globeGridVertices step ++ ([⟨0, -90⟩, ⟨0, 90⟩] : List LonLatVertex)).take (gridSizeLat step * gridSizeLon step), -90 < v.lat ∧ v.lat < 90
      rw [show gridSizeLat step * gridSizeLon step = (globeGridVertices step).length
          from (globeGridVertices_length step).symm, List.take_left]
      exact globeGridVertices_lat hpos hH1
    · rw [GlobeMesh.indexData, tripleFlat_length]
      omega
    · intro i hi
      rw [GlobeMesh.indexData] at hi
      simp only [List.mem_flatMap, List.mem_cons, List.mem_singleton,
        List.not_mem_nil, or_false] at hi
      obtain ⟨t, ht, hcase⟩ := hi
      have hb := globe_tris_bound hH1 t ht
      show i < (globeGridVertices step ++ ([⟨0, -90⟩, ⟨0, 90⟩] : List LonLatVertex)).length
      rw [List.length_append, globeGridVertices_length]
      simp only [List.length_cons, List.length_nil]
      have hcomm : gridSizeLat step * gridSizeLon step
          = gridSizeLon step * gridSizeLat step := Nat.mul_comm _ _
      rcases hcase with h | h | h <;> subst h <;> omega
    · intro hH2
      have hF3 : 3 ≤ ⌊(180 : ℚ) / step⌋ := by
        rw [gridSizeLat] at hH2
        omega
      have h180 : (3 : ℚ) ≤ 180 / step := by exact_mod_cast Int.le_floor.mp hF3
      have h360 : (6 : ℚ) ≤ 360 / step := by
        have hsplit : (360 : ℚ) / step = 2 * (180 / step) := by ring
        rw [hsplit]
        linarith
      have hf6 : 6 ≤ ⌊(360 : ℚ) / step⌋ := Int.le_floor.mpr (by exact_mod_cast h360)
      have hW2 : 2 ≤ gridSizeLon step := by
        rw [gridSizeLon]
        omega
      exact globe_tris_distinct hW2 hH2

/-- C6 witness at step 30: the hypotheses hold and the structure follows. -/
theorem globe_mesh_structure_witness :
    ((360 : ℚ) / 30).den = 1 ∧ (0 : ℚ) < 30 ∧ 1 ≤ gridSizeLat 30 ∧
    ∃ m : GlobeMesh, createGlobeMesh 30 = some m ∧
      m.vertices.length = gridSizeLat 30 * gridSizeLon 30 + 2 ∧
      m.vertices.drop (gridSizeLat 30 * gridSizeLon 30) = [⟨0, -90⟩, ⟨0, 90⟩] ∧
      (∀ v ∈ m.vertices.take (gridSizeLat 30 * gridSizeLon 30),
        -90 < v.lat ∧ v.lat < 90) ∧
      m.indexData.length % 3 = 0 ∧
      (∀ i ∈ m.indexData, i < m.vertices.length) ∧
      (2 ≤ gridSizeLat 30 →
        ∀ t ∈ m.triangles, t.1 ≠ t.2.1 ∧ t.1 ≠ t.2.2 ∧ t.2.1 ≠ t.2.2) := by
  have hden : ((360 : ℚ) / 30).den = 1 := by
    rw [show (360 : ℚ) / 30 = ((12 : ℤ) : ℚ) by norm_num]
    exact Rat.den_intCast 12
  have hlat : gridSizeLat 30 = 5 := by
    rw [gridSizeLat, show (180 : ℚ) / 30 = ((6 : ℤ) : ℚ) by norm_num, Int.floor_intCast]
    rfl
  exact ⟨hden, by norm_num, by rw [hlat]; omega,
    globe_mesh_structure.2.2 30 hden (by norm_num) (by rw [hlat]; omega)⟩

end Projections
